import Mathlib

/-!
Verification development for the PixelPrism text-entry editing engine and its
asynchronous X11 clipboard protocol.

The definitions below are a shallow embedding of `src/entry.c` and
`src/clipboard.c`:

* C byte strings (`char *`) become `List Nat` of byte values.
* The mutable `struct MiniEntry` becomes the record `EntryState`, keeping only
  the fields the editing engine reads or writes (text, cursor, selection,
  undo/redo stacks, configuration); rendering-only fields (fonts, pixmaps,
  scroll offset, damage rectangles) are omitted because every operation
  modelled here either never touches them or touches them only after all the
  modelled state has been decided.  The `changes` counter records how many
  times the C code invoked the `on_change` notification callback.
* The mutable `struct ClipboardContext` becomes the record
  `ClipboardContext`; X windows and atoms are `Nat` (0 encodes `None`/`NULL`),
  and the pending-request array of size `MAX_PENDING_REQUESTS = 8` becomes a
  `List PendingRequest` scanned in index order exactly as the C loops do.
* Calls into Xlib are environment inputs: the result of `XGetSelectionOwner`
  is a parameter, and the outcome of the two `XGetWindowProperty` calls in
  `handle_selection_notify` is the parameter type `PropRead`.
* Callback invocations (`req->callback(data, user_data)`) are returned as
  explicit lists of emitted calls; a callback function pointer together with
  its `user_data` is identified by a `Nat` (0 encodes the `NULL` pointer).
-/

/-- A byte of a C string (value of an `unsigned char`). -/
abbrev Byte := Nat

/-- A C byte string, without its terminating NUL. -/
abbrev CText := List Byte

/-! ### C character classification (ASCII, default locale)

These model the `<ctype.h>` functions applied to `(unsigned char)ch`
as `entry.c` does. -/

/-- C `isdigit` on a byte. -/
def isdigitB (c : Byte) : Bool := 48 ≤ c && c ≤ 57

/-- C `isprint` on a byte (printable ASCII, space through tilde). -/
def isprintB (c : Byte) : Bool := 32 ≤ c && c ≤ 126

/-- C `isxdigit` on a byte. -/
def isxdigitB (c : Byte) : Bool :=
  isdigitB c || (65 ≤ c && c ≤ 70) || (97 ≤ c && c ≤ 102)

/-- C `toupper` on a byte. -/
def toupperB (c : Byte) : Byte := if 97 ≤ c && c ≤ 122 then c - 32 else c

/-- C `tolower` on a byte. -/
def tolowerB (c : Byte) : Byte := if 65 ≤ c && c ≤ 90 then c + 32 else c

/-- Entry kinds, from `MiniEntryKind` in `entry.h`. -/
inductive EntryKind
  | text
  | int
  | float
  | hex
deriving DecidableEq, Repr, Inhabited

/-- The editing-engine state of `struct MiniEntry` (`entry.c`).

`undo_stack`/`redo_stack` hold the stacks with index 0 the oldest entry, so
the list length is the C `undo_top`/`redo_top`.  `undo_capacity` is the C
`undo_capacity` (equal to `redo_capacity`, both set from `theme.undo_depth`
in `entry_create`).  `changes` counts `on_change` notification invocations. -/
structure EntryState where
  text : CText
  cursor : Nat
  sel_anchor : Nat
  sel_active : Nat
  undo_stack : List CText
  redo_stack : List CText
  undo_capacity : Nat
  kind : EntryKind
  max_length : Int
  hex_uppercase : Bool
  changes : Nat
deriving DecidableEq, Repr, Inhabited

/-- `validate_char` from `entry.c`: per-kind acceptance plus normalization.
Returns `some out` when the byte is accepted (with `out` the normalized
byte written through the `out` pointer), `none` when rejected. -/
def validate_char (e : EntryState) (ch : Byte) : Option Byte :=
  match e.kind with
  | .text =>
      if isprintB ch && ch != 13 && ch != 10 then some ch else none
  | .int =>
      if isdigitB ch || ch == 32 || ch == 44 then some ch else none
  | .float =>
      if ch == 46 || ch == 44 || ch == 32 then some ch
      else if isdigitB ch then some ch
      else none
  | .hex =>
      if ch == 35 then some 35
      else if isxdigitB ch then
        some (if e.hex_uppercase then toupperB ch else tolowerB ch)
      else none

/-- `delete_selection` from `entry.c`: remove the selected byte range,
collapse the selection, and place the cursor at its start. -/
def delete_selection (e : EntryState) : EntryState :=
  if e.sel_anchor = e.sel_active then e
  else
    let a := min e.sel_anchor e.sel_active
    let b := max e.sel_anchor e.sel_active
    { e with
      text := e.text.take a ++ e.text.drop b
      cursor := a
      sel_anchor := a
      sel_active := a }

/-- The pure stack transformation performed by `undo_push` on the undo
stack: when the stack is at (or beyond) capacity, the oldest entry
(index 0) is dropped before the snapshot is appended. -/
def pushSnap (cap : Nat) (stack : List CText) (snap : CText) : List CText :=
  (if cap ≤ stack.length then stack.drop 1 else stack) ++ [snap]

/-- `undo_push` from `entry.c`: push a snapshot of the current text onto the
undo stack (evicting the oldest entry when at capacity) and clear the whole
redo stack. -/
def undo_push (e : EntryState) : EntryState :=
  { e with
    undo_stack := pushSnap e.undo_capacity e.undo_stack e.text
    redo_stack := [] }

/-- `do_undo` from `entry.c`: with an empty undo stack, return immediately;
otherwise move the current text to the redo stack, restore the most recent
snapshot, clamp the cursor, collapse the selection, and fire `on_change`. -/
def do_undo (e : EntryState) : EntryState :=
  match e.undo_stack.getLast? with
  | none => e
  | some prev =>
      let cursor := min e.cursor prev.length
      { e with
        text := prev
        undo_stack := e.undo_stack.dropLast
        redo_stack := e.redo_stack ++ [e.text]
        cursor := cursor
        sel_anchor := cursor
        sel_active := cursor
        changes := e.changes + 1 }

/-- `do_redo` from `entry.c`: symmetric to `do_undo`. -/
def do_redo (e : EntryState) : EntryState :=
  match e.redo_stack.getLast? with
  | none => e
  | some nxt =>
      let cursor := min e.cursor nxt.length
      { e with
        text := nxt
        undo_stack := e.undo_stack ++ [e.text]
        redo_stack := e.redo_stack.dropLast
        cursor := cursor
        sel_anchor := cursor
        sel_active := cursor
        changes := e.changes + 1 }

/-- `insert_char` from `entry.c`: validate the byte, push a history
snapshot, delete a non-empty selection, enforce `max_length` (rejecting
with an early return), then splice the normalized byte at the cursor and
advance the cursor.  The trailing `ensure_cursor_visible`/`entry_draw`
calls touch only rendering state. -/
def insert_char (e : EntryState) (ch : Byte) : EntryState :=
  match validate_char e ch with
  | none => e
  | some out =>
      let e1 := undo_push e
      let e2 := if e1.sel_anchor ≠ e1.sel_active then delete_selection e1 else e1
      if 0 < e2.max_length ∧ e2.max_length ≤ (e2.text.length : Int) then e2
      else
        { e2 with
          text := e2.text.take e2.cursor ++ [out] ++ e2.text.drop e2.cursor
          cursor := e2.cursor + 1 }

/-! ### Clipboard context (`clipboard.c`) -/

/-- The two selection slots (`SelectionType` in `clipboard.h`). -/
inductive SelectionType
  | clipboard
  | primary
deriving DecidableEq, Repr, Inhabited

/-- `ClipboardData` from `clipboard.c`: the owned text of one slot (`none`
when we do not own it) and the owning window (`0` encodes X `None`). -/
structure ClipboardData where
  text : Option CText
  owner_window : Nat
deriving DecidableEq, Repr, Inhabited

/-- `PendingRequest` from `clipboard.c`.  `callback` identifies the
callback/user-data pair (`0` encodes a `NULL` function pointer). -/
structure PendingRequest where
  window : Nat
  callback : Nat
  type : SelectionType
  property : Nat
  active : Bool
deriving DecidableEq, Repr, Inhabited

/-- `struct ClipboardContext` from `clipboard.c`.  Only `property_atom`
matters among the cached atoms: the other atom comparisons are folded into
the event parameters (`PropRead`).  The requests list models the fixed
array of `MAX_PENDING_REQUESTS = 8` slots, scanned in index order. -/
structure ClipboardContext where
  property_atom : Nat
  clipboard_data : ClipboardData
  primary_data : ClipboardData
  requests : List PendingRequest
deriving DecidableEq, Repr, Inhabited

/-- `clipboard_create`: zeroed slot data and an all-inactive request table
(`calloc` zeroes every field; field value 0 of the selection-type enum is
`SELECTION_CLIPBOARD`), with the transfer property atom interned. -/
def clipboard_create (propertyAtom : Nat) : ClipboardContext :=
  { property_atom := propertyAtom
    clipboard_data := ⟨none, 0⟩
    primary_data := ⟨none, 0⟩
    requests := List.replicate 8 ⟨0, 0, .clipboard, 0, false⟩ }

/-- `get_data_for_selection`, specialized to the two selections the public
API can name (`clipboard_atom` for `SELECTION_CLIPBOARD`, `XA_PRIMARY`
otherwise); for these it never returns `NULL`. -/
def get_data_for_selection (c : ClipboardContext) (t : SelectionType) : ClipboardData :=
  match t with
  | .clipboard => c.clipboard_data
  | .primary => c.primary_data

/-- Store a slot's `ClipboardData` back into the context. -/
def set_data_for_selection (c : ClipboardContext) (t : SelectionType) (d : ClipboardData) :
    ClipboardContext :=
  match t with
  | .clipboard => { c with clipboard_data := d }
  | .primary => { c with primary_data := d }

/-- `clipboard_set_text`: replace the slot's owned text.  With text present,
store it and record `win` as owner (claiming the X selection); with `NULL`
text, clear the slot and release ownership. -/
def clipboard_set_text (c : ClipboardContext) (win : Nat) (txt : Option CText)
    (t : SelectionType) : ClipboardContext :=
  match txt with
  | some s => set_data_for_selection c t ⟨some s, win⟩
  | none => set_data_for_selection c t ⟨none, 0⟩

/-- `handle_selection_clear`: losing ownership of a slot clears its owned
text and owner record.  The event names an arbitrary selection atom;
`none` stands for an atom that is neither `CLIPBOARD` nor `XA_PRIMARY`,
for which `get_data_for_selection` returns `NULL` and nothing happens. -/
def handle_selection_clear (c : ClipboardContext) (sel : Option SelectionType) :
    ClipboardContext :=
  match sel with
  | none => c
  | some t => set_data_for_selection c t ⟨none, 0⟩

/-- Index of the first inactive slot of the request table (the allocation
scan in `clipboard_request_text`). -/
def findFreeIdx : List PendingRequest → Option Nat
  | [] => none
  | r :: rs => if r.active then (findFreeIdx rs).map (· + 1) else some 0

/-- `find_request` from `clipboard.c`, returning the index of the first
active request matching the (window, property) pair. -/
def find_request : List PendingRequest → Nat → Nat → Option Nat
  | [], _, _ => none
  | r :: rs, win, prop =>
      if r.active = true ∧ r.window = win ∧ r.property = prop then some 0
      else (find_request rs win prop).map (· + 1)

/-- Result of one `clipboard_request_text` call: the updated context, the
callback invocations performed synchronously inside the call (callback id
and payload), and whether an outbound `XConvertSelection` was issued. -/
structure RequestResult where
  ctx : ClipboardContext
  calls : List (Nat × Option CText)
  convert : Bool
deriving DecidableEq, Repr, Inhabited

/-- The slow path of `clipboard_request_text`: allocate a pending-request
slot (failing the call with a no-data callback when the table is full) and
issue the outbound conversion request. -/
def alloc_request (c : ClipboardContext) (win cb : Nat) (t : SelectionType) : RequestResult :=
  match findFreeIdx c.requests with
  | none => ⟨c, [(cb, none)], false⟩
  | some i =>
      ⟨{ c with requests := c.requests.set i ⟨win, cb, t, c.property_atom, true⟩ },
       [], true⟩

/-- `clipboard_request_text` from `clipboard.c`.  `owner` is the window
returned by `XGetSelectionOwner` for the requested selection (`0` encodes
X `None`). -/
def clipboard_request_text (c : ClipboardContext) (win cb : Nat) (t : SelectionType)
    (owner : Nat) : RequestResult :=
  if cb = 0 then ⟨c, [], false⟩
  else if owner = 0 then ⟨c, [(cb, none)], false⟩
  else
    let d := get_data_for_selection c t
    match d.text with
    | some tx => if owner = d.owner_window then ⟨c, [(cb, some tx)], false⟩
                 else alloc_request c win cb t
    | none => alloc_request c win cb t

/-- A callback invocation performed by event handling or teardown, tagged
with the index of the request-table slot it resolves. -/
structure SlotCall where
  slot : Nat
  cb : Nat
  arg : Option CText
deriving DecidableEq, Repr, Inhabited

/-- Outcome of the two `XGetWindowProperty` calls in
`handle_selection_notify`: the size/type probe can fail or report the
`INCR` type; the full read can fail or yield a payload whose type either is
one of the accepted text types (`UTF8_STRING`, `XA_STRING`) or is not. -/
inductive PropRead
  | firstFail
  | incr
  | secondFail
  | typed (isText : Bool) (payload : CText)
deriving DecidableEq, Repr, Inhabited

/-- A `SelectionNotify` event as seen by the requester: its `requestor`
window and its `property` atom (`0` encodes X `None`, i.e. denial). -/
structure NotifyEvent where
  requestor : Nat
  property : Nat
deriving DecidableEq, Repr, Inhabited

/-- The payload passed to the callback by `handle_selection_notify`,
according to the resolution path taken: denial, probe failure, `INCR`
marker, read failure, and non-text payloads all pass `NULL`; a text payload
is passed through. -/
def notify_arg (prop : Nat) (pr : PropRead) : Option CText :=
  if prop = 0 then none
  else
    match pr with
    | .typed true payload => some payload
    | _ => none

/-- `handle_selection_notify` from `clipboard.c`: match the event against
the pending-request table; when a request matches, invoke its callback once
with the payload determined by the resolution path and mark the request
inactive.  Every path of the C function performs exactly this. -/
def handle_selection_notify (c : ClipboardContext) (ev : NotifyEvent) (pr : PropRead) :
    ClipboardContext × List SlotCall :=
  match find_request c.requests ev.requestor ev.property with
  | none => (c, [])
  | some i =>
      let r := c.requests.getD i default
      ({ c with requests := c.requests.set i { r with active := false } },
       [⟨i, r.callback, notify_arg ev.property pr⟩])

/-- Run a sequence of `SelectionNotify` events (each with its property-read
outcome), collecting all callback invocations. -/
def runNotifies : ClipboardContext → List (NotifyEvent × PropRead) →
    ClipboardContext × List SlotCall
  | c, [] => (c, [])
  | c, (ev, pr) :: rest =>
      let s := handle_selection_notify c ev pr
      let t := runNotifies s.1 rest
      (t.1, s.2 ++ t.2)

/-- Helper for `clipboard_destroy`, carrying the index of the head slot. -/
def destroyCallsAux : List PendingRequest → Nat → List SlotCall
  | [], _ => []
  | r :: rs, k =>
      (if r.active = true ∧ r.callback ≠ 0 then [⟨k, r.callback, none⟩] else []) ++
        destroyCallsAux rs (k + 1)

/-- `clipboard_destroy` from `clipboard.c`: on session teardown every still
active pending request with a non-`NULL` callback is resolved with no data;
the context is then freed. -/
def clipboard_destroy (c : ClipboardContext) : List SlotCall :=
  destroyCallsAux c.requests 0

/-- Number of callback invocations in `cs` that resolve table slot `i`. -/
def callsTo (i : Nat) (cs : List SlotCall) : Nat :=
  (cs.filter (fun c => c.slot == i)).length

/-- States of the clipboard context reachable through its public API and
event handlers, starting from `clipboard_create` (with a nonzero interned
transfer-property atom). -/
inductive ClipReachable : ClipboardContext → Prop
  | create (p : Nat) (hp : p ≠ 0) : ClipReachable (clipboard_create p)
  | request {c} (win cb : Nat) (t : SelectionType) (owner : Nat) :
      ClipReachable c → ClipReachable (clipboard_request_text c win cb t owner).ctx
  | notify {c} (ev : NotifyEvent) (pr : PropRead) :
      ClipReachable c → ClipReachable (handle_selection_notify c ev pr).1
  | setText {c} (win : Nat) (txt : Option CText) (t : SelectionType) :
      ClipReachable c → ClipReachable (clipboard_set_text c win txt t)
  | clear {c} (sel : Option SelectionType) :
      ClipReachable c → ClipReachable (handle_selection_clear c sel)

/-- Whether the request table holds two distinct active entries with the
same (window, property) key. -/
def hasDupKey : List PendingRequest → Bool
  | [] => false
  | r :: rs =>
      (r.active && rs.any (fun s => s.active && s.window == r.window &&
        s.property == r.property)) || hasDupKey rs

/-! ### Entry/clipboard orchestration (`entry.c`) -/

/-- `copy_selection` from `entry.c`: with an empty selection, return at
once; otherwise copy the selected substring to both the CLIPBOARD and
PRIMARY slots, and when `cut` is set additionally push a history snapshot
and delete the selection.  `win` is the entry widget window `e->win`. -/
def copy_selection (e : EntryState) (ctx : ClipboardContext) (win : Nat) (cut : Bool) :
    EntryState × ClipboardContext :=
  if e.sel_anchor = e.sel_active then (e, ctx)
  else
    let a := min e.sel_anchor e.sel_active
    let b := max e.sel_anchor e.sel_active
    let t := (e.text.drop a).take (b - a)
    let ctx1 := clipboard_set_text ctx win (some t) .clipboard
    let ctx2 := clipboard_set_text ctx1 win (some t) .primary
    if cut then (delete_selection (undo_push e), ctx2) else (e, ctx2)

/-- The character filtering loop of `filtered_paste`: each incoming byte is
passed through `validate_char`; an accepted byte is appended to the output,
and after appending, the loop breaks once the effective length
(`base + accepted-so-far`) has reached `max_length`.  `o` is the number of
bytes already accepted. -/
def paste_filter (e : EntryState) (base : Nat) : CText → Nat → CText
  | [], _ => []
  | ch :: rest, o =>
      match validate_char e ch with
      | none => paste_filter e base rest o
      | some v =>
          if 0 < e.max_length ∧ e.max_length ≤ ((base + (o + 1) : Nat) : Int) then [v]
          else v :: paste_filter e base rest (o + 1)

/-- `filtered_paste` from `entry.c`: `NULL` or empty data is ignored; the
incoming bytes are filtered through `validate_char` against the
post-deletion base length; when nothing survives the filter, return with no
state change at all; otherwise push one history snapshot, delete a
non-empty selection, and splice the filtered bytes at the cursor. -/
def filtered_paste (e : EntryState) (data : Option CText) : EntryState :=
  match data with
  | none => e
  | some s =>
      if s.length = 0 then e
      else
        let base :=
          if e.sel_anchor ≠ e.sel_active then
            e.text.length - (max e.sel_anchor e.sel_active - min e.sel_anchor e.sel_active)
          else e.text.length
        let out := paste_filter e base s 0
        if out.length = 0 then e
        else
          let e1 := undo_push e
          let e2 := if e1.sel_anchor ≠ e1.sel_active then delete_selection e1 else e1
          { e2 with
            text := e2.text.take e2.cursor ++ out ++ e2.text.drop e2.cursor
            cursor := e2.cursor + out.length }

/-- `paste_callback` from `entry.c`: the clipboard module resolving a paste
request with `NULL` leaves the entry untouched; a text payload goes through
`filtered_paste`. -/
def paste_callback (text : Option CText) (e : EntryState) : EntryState :=
  match text with
  | none => e
  | some s => filtered_paste e (some s)

/-- Push a sequence of snapshots: for each text in turn, set the buffer to
it and run `undo_push` (how successive edits feed the history stack). -/
def pushMany (e : EntryState) (ts : List CText) : EntryState :=
  ts.foldl (fun acc t => undo_push { acc with text := t }) e

/-- Entry states reachable from empty history stacks by any interleaving of
`undo_push`, `do_undo`, `do_redo`, and edits that do not touch the history
stacks or their capacity. -/
inductive HistReachable : EntryState → Prop
  | init (e : EntryState) (hu : e.undo_stack = []) (hr : e.redo_stack = []) :
      HistReachable e
  | push {e} (t : CText) : HistReachable e → HistReachable (undo_push { e with text := t })
  | undo {e} : HistReachable e → HistReachable (do_undo e)
  | redo {e} : HistReachable e → HistReachable (do_redo e)
  | edit {e} (e' : EntryState) (hu : e'.undo_stack = e.undo_stack)
      (hr : e'.redo_stack = e.redo_stack) (hc : e'.undo_capacity = e.undo_capacity) :
      HistReachable e → HistReachable e'

/-! ### Helper lemmas -/

theorem paste_filter_all_rejected (e : EntryState) (base : Nat) :
    ∀ (s : CText) (o : Nat), (∀ c ∈ s, validate_char e c = none) →
      paste_filter e base s o = [] := by
  intro s
  induction s with
  | nil => intro o _; rfl
  | cons c rest ih =>
      intro o h
      have hc : validate_char e c = none := h c (List.mem_cons_self c rest)
      have hrest : ∀ x ∈ rest, validate_char e x = none :=
        fun x hx => h x (List.mem_cons_of_mem c hx)
      simp [paste_filter, hc, ih o hrest]

theorem findFreeIdx_none_of_all_active (rs : List PendingRequest)
    (h : ∀ r ∈ rs, r.active = true) : findFreeIdx rs = none := by
  induction rs with
  | nil => rfl
  | cons r rest ih =>
      have hr : r.active = true := h r (List.mem_cons_self r rest)
      have hrest : ∀ x ∈ rest, x.active = true :=
        fun x hx => h x (List.mem_cons_of_mem r hx)
      simp [findFreeIdx, hr, ih hrest]

/-! ### C7: undo/redo with an empty stack is a no-op -/

/-- C7: invoking undo with an empty undo stack leaves the whole entry state
(text, cursor, selection, both history stacks, notification count)
unchanged, and symmetrically for redo with an empty redo stack. -/
theorem undo_redo_empty_noop (e : EntryState) :
    (e.undo_stack = [] → do_undo e = e) ∧ (e.redo_stack = [] → do_redo e = e) := by
  constructor
  · intro h; simp [do_undo, h]
  · intro h; simp [do_redo, h]

def entC7 : EntryState :=
  { text := [50, 53, 53], cursor := 3, sel_anchor := 3, sel_active := 3,
    undo_stack := [], redo_stack := [], undo_capacity := 64,
    kind := .int, max_length := 12, hex_uppercase := false, changes := 0 }

/-- Witness for C7 on the integer entry holding "255" with empty history. -/
theorem undo_redo_empty_noop_witness :
    entC7.undo_stack = [] ∧ entC7.redo_stack = [] ∧
      do_undo entC7 = entC7 ∧ do_redo entC7 = entC7 :=
  ⟨rfl, rfl, (undo_redo_empty_noop entC7).1 rfl, (undo_redo_empty_noop entC7).2 rfl⟩

/-! ### C10: paste whose every character is rejected changes nothing -/

/-- C10: a pasted string in which every byte is rejected by the per-kind
validation (in particular an empty string) leaves the entry state entirely
unchanged: no text, cursor or selection change, no history push, no redo
clear; likewise a paste resolved with no data. -/
theorem paste_all_rejected_noop (e : EntryState) (s : CText)
    (h : ∀ c ∈ s, validate_char e c = none) :
    filtered_paste e (some s) = e ∧ paste_callback none e = e := by
  refine ⟨?_, rfl⟩
  by_cases hs : s.length = 0
  · simp [filtered_paste, hs]
  · simp [filtered_paste, hs, paste_filter_all_rejected e _ s 0 h]

def entC10 : EntryState :=
  { text := [49, 50], cursor := 2, sel_anchor := 0, sel_active := 2,
    undo_stack := [[49]], redo_stack := [[51]], undo_capacity := 64,
    kind := .int, max_length := 12, hex_uppercase := false, changes := 0 }

/-- Witness for C10: pasting "xy" (all rejected by the integer filter) into
an integer entry changes nothing. -/
theorem paste_all_rejected_noop_witness :
    (∀ c ∈ ([120, 121] : CText), validate_char entC10 c = none) ∧
      filtered_paste entC10 (some [120, 121]) = entC10 ∧
      paste_callback none entC10 = entC10 :=
  ⟨by decide,
   (paste_all_rejected_noop entC10 [120, 121] (by decide)).1,
   (paste_all_rejected_noop entC10 [120, 121] (by decide)).2⟩

/-! ### C4: the two synchronous fast paths of `clipboard_request_text` -/

/-- C4: with no selection owner, the paste request resolves synchronously
inside the call with no data, allocating no pending request and issuing no
conversion request; with the owner being this process's recorded owner
window while local text is held, it resolves synchronously with that text,
again without allocation or an outbound request. -/
theorem request_text_fast_paths (c : ClipboardContext) (win cb : Nat)
    (t : SelectionType) (owner : Nat) (tx : CText) (hcb : cb ≠ 0) :
    (owner = 0 → clipboard_request_text c win cb t owner = ⟨c, [(cb, none)], false⟩)
    ∧ (owner ≠ 0 → (get_data_for_selection c t).text = some tx →
        owner = (get_data_for_selection c t).owner_window →
        clipboard_request_text c win cb t owner = ⟨c, [(cb, some tx)], false⟩) := by
  constructor
  · intro h; simp [clipboard_request_text, hcb, h]
  · intro h htx hown
    simp [clipboard_request_text, hcb, h, htx, ← hown]

def ctxC4 : ClipboardContext :=
  { property_atom := 5
    clipboard_data := ⟨some [98, 99, 100], 7⟩
    primary_data := ⟨none, 0⟩
    requests := List.replicate 8 ⟨0, 0, .clipboard, 0, false⟩ }

/-- Witness for C4: an unowned PRIMARY request fails synchronously, and a
CLIPBOARD request whose owner is our own window 7 holding "bcd" resolves
synchronously with "bcd". -/
theorem request_text_fast_paths_witness :
    (1 : Nat) ≠ 0 ∧
      clipboard_request_text ctxC4 7 1 .primary 0 = ⟨ctxC4, [(1, none)], false⟩ ∧
      clipboard_request_text ctxC4 7 1 .clipboard 7 = ⟨ctxC4, [(1, some [98, 99, 100])], false⟩ :=
  ⟨by decide,
   (request_text_fast_paths ctxC4 7 1 .primary 0 [] (by decide)).1 rfl,
   (request_text_fast_paths ctxC4 7 1 .clipboard 7 [98, 99, 100] (by decide)).2
     (by decide) rfl rfl⟩

/-! ### C6: request while the pending-request table is full -/

/-- C6: when all 8 pending-request slots are active and neither fast path
applies, a new paste request resolves its callback synchronously with no
data and the context — in particular every entry of the request table — is
left unchanged. -/
theorem request_text_table_full (c : ClipboardContext) (win cb : Nat)
    (t : SelectionType) (owner : Nat) (hcb : cb ≠ 0) (howner : owner ≠ 0)
    (_hlen : c.requests.length = 8)
    (hall : ∀ r ∈ c.requests, r.active = true)
    (hnl : owner ≠ (get_data_for_selection c t).owner_window ∨
      (get_data_for_selection c t).text = none) :
    clipboard_request_text c win cb t owner = ⟨c, [(cb, none)], false⟩ := by
  have hfree := findFreeIdx_none_of_all_active c.requests hall
  rcases h : (get_data_for_selection c t).text with _ | tx
  · simp [clipboard_request_text, hcb, howner, h, alloc_request, hfree]
  · rcases hnl with hno | hnone
    · simp [clipboard_request_text, hcb, howner, h, alloc_request, hfree, hno]
    · rw [h] at hnone; cases hnone

def ctxC6 : ClipboardContext :=
  { property_atom := 5
    clipboard_data := ⟨none, 0⟩
    primary_data := ⟨none, 0⟩
    requests := List.replicate 8 ⟨3, 1, .clipboard, 5, true⟩ }

/-- Witness for C6: a 9th CLIPBOARD request against a full table (owner is
the foreign window 99) fails synchronously and leaves the table intact. -/
theorem request_text_table_full_witness :
    (∀ r ∈ ctxC6.requests, r.active = true) ∧
      clipboard_request_text ctxC6 7 2 .clipboard 99 = ⟨ctxC6, [(2, none)], false⟩ :=
  ⟨by decide,
   request_text_table_full ctxC6 7 2 .clipboard 99 (by decide) (by decide) rfl
     (by decide) (Or.inr rfl)⟩

/-! ### C8: the copy intent -/

/-- C8: copy with an empty selection is a complete no-op; with a non-empty
selection it writes the selected substring to both the CLIPBOARD and
PRIMARY slots (recording the entry window as owner) while leaving the
entry state — text, cursor, selection indices, both history stacks — and
the pending-request table untouched. -/
theorem copy_intent (e : EntryState) (ctx : ClipboardContext) (win : Nat) :
    (e.sel_anchor = e.sel_active → copy_selection e ctx win false = (e, ctx))
    ∧ (e.sel_anchor ≠ e.sel_active →
        copy_selection e ctx win false =
          (e, { ctx with
                clipboard_data := ⟨some ((e.text.drop (min e.sel_anchor e.sel_active)).take
                  (max e.sel_anchor e.sel_active - min e.sel_anchor e.sel_active)), win⟩
                primary_data := ⟨some ((e.text.drop (min e.sel_anchor e.sel_active)).take
                  (max e.sel_anchor e.sel_active - min e.sel_anchor e.sel_active)), win⟩ })) := by
  constructor
  · intro h; simp [copy_selection, h]
  · intro h
    simp [copy_selection, h, clipboard_set_text, set_data_for_selection]

def entC8 : EntryState :=
  { text := [97, 98, 99, 100, 101, 102], cursor := 4, sel_anchor := 1, sel_active := 4,
    undo_stack := [], redo_stack := [], undo_capacity := 64,
    kind := .text, max_length := 256, hex_uppercase := false, changes := 0 }

/-- Witness for C8: selection `[1,4)` of "abcdef" copies "bcd" to both
slots without touching the entry. -/
theorem copy_intent_witness :
    entC8.sel_anchor ≠ entC8.sel_active ∧
      copy_selection entC8 (clipboard_create 5) 7 false =
        (entC8, { clipboard_create 5 with
                  clipboard_data := ⟨some [98, 99, 100], 7⟩
                  primary_data := ⟨some [98, 99, 100], 7⟩ }) :=
  ⟨by decide, (copy_intent entC8 (clipboard_create 5) 7).2 (by decide)⟩

/-! ### C2: order of steps in the insert-typed-character intent -/

def entC2 : EntryState :=
  { text := [53], cursor := 1, sel_anchor := 1, sel_active := 1,
    undo_stack := [], redo_stack := [[57]], undo_capacity := 64,
    kind := .int, max_length := 1, hex_uppercase := false, changes := 0 }

/-- Counterexample to C2 as stated: in an integer entry at its maximum
length 1 holding "5" with a non-empty redo stack, typing the digit "7" is
rejected by the max-length check — the text is unchanged — yet the history
stacks do change: a snapshot was pushed onto the undo stack and the redo
stack was cleared, because `insert_char` pushes history before the
max-length check, not after it. -/
theorem insert_order_counterexample :
    (insert_char entC2 55).text = entC2.text ∧
    (insert_char entC2 55).cursor = entC2.cursor ∧
    (insert_char entC2 55).undo_stack ≠ entC2.undo_stack ∧
    (insert_char entC2 55).redo_stack ≠ entC2.redo_stack := by
  decide

/-- C2 amended: `insert_char` performs validate → push history snapshot
(clearing the redo stack) → delete a non-empty selection → check the
kind-specific maximum length → insert → move cursor.  A character rejected
by the max-length check therefore leaves the text, cursor and selection
unchanged (when no selection was pending deletion) but has already pushed
an undo snapshot of the unchanged text and cleared the redo stack. -/
theorem insert_maxlen_reject_pushes_history (e : EntryState) (ch v : Byte)
    (hv : validate_char e ch = some v)
    (hsel : e.sel_anchor = e.sel_active)
    (hmax : 0 < e.max_length) (hlen : e.max_length ≤ (e.text.length : Int)) :
    insert_char e ch =
      { e with undo_stack := pushSnap e.undo_capacity e.undo_stack e.text
               redo_stack := [] } := by
  simp [insert_char, hv, undo_push, hsel, hmax, hlen]

/-- Witness for the amended C2 at the counterexample state. -/
theorem insert_maxlen_reject_pushes_history_witness :
    validate_char entC2 55 = some 55 ∧
      insert_char entC2 55 =
        { entC2 with undo_stack := pushSnap entC2.undo_capacity entC2.undo_stack entC2.text
                     redo_stack := [] } :=
  ⟨by decide,
   insert_maxlen_reject_pushes_history entC2 55 55 (by decide) rfl (by decide) (by decide)⟩

/-! ### C5: push-with-eviction and the history bound -/

theorem foldl_pushSnap_drop (cap : Nat) (hcap : 1 ≤ cap) :
    ∀ (ts : List CText) (st : List CText), st.length ≤ cap →
      ts.foldl (pushSnap cap) st = (st ++ ts).drop (st.length + ts.length - cap) := by
  intro ts
  induction ts with
  | nil =>
      intro st hst
      simp [Nat.sub_eq_zero_of_le hst]
  | cons t rest ih =>
      intro st hst
      rcases Nat.lt_or_ge st.length cap with hlt | hge
      · have hpush : pushSnap cap st t = st ++ [t] := by
          simp [pushSnap, Nat.not_le.mpr hlt]
        have hlen : (st ++ [t]).length ≤ cap := by
          rw [List.length_append, List.length_singleton]; omega
        have hidx : (st ++ [t]).length + rest.length - cap
            = st.length + (t :: rest).length - cap := by
          rw [List.length_append, List.length_singleton, List.length_cons]; omega
        calc (t :: rest).foldl (pushSnap cap) st
            = rest.foldl (pushSnap cap) (st ++ [t]) := by rw [List.foldl_cons, hpush]
          _ = ((st ++ [t]) ++ rest).drop ((st ++ [t]).length + rest.length - cap) :=
              ih (st ++ [t]) hlen
          _ = (st ++ t :: rest).drop (st.length + (t :: rest).length - cap) := by
              rw [List.append_assoc, List.singleton_append, hidx]
      · have heq : st.length = cap := Nat.le_antisymm hst hge
        have hne : st ≠ [] := by
          intro hnil
          rw [hnil] at heq
          simp at heq
          omega
        have hpush : pushSnap cap st t = st.drop 1 ++ [t] := by
          simp [pushSnap, hge]
        have hlen : (st.drop 1 ++ [t]).length ≤ cap := by
          rw [List.length_append, List.length_singleton, List.length_drop]; omega
        have hidx : (st.drop 1 ++ [t]).length + rest.length - cap = rest.length := by
          rw [List.length_append, List.length_singleton, List.length_drop]; omega
        calc (t :: rest).foldl (pushSnap cap) st
            = rest.foldl (pushSnap cap) (st.drop 1 ++ [t]) := by rw [List.foldl_cons, hpush]
          _ = ((st.drop 1 ++ [t]) ++ rest).drop ((st.drop 1 ++ [t]).length + rest.length - cap) :=
              ih (st.drop 1 ++ [t]) hlen
          _ = (st.drop 1 ++ t :: rest).drop rest.length := by
              rw [List.append_assoc, List.singleton_append, hidx]
          _ = (st ++ t :: rest).drop (st.length + (t :: rest).length - cap) := by
              rcases st with _ | ⟨a, l⟩
              · exact absurd rfl hne
              · have hidx2 : (a :: l).length + (t :: rest).length - cap = rest.length + 1 := by
                  rw [List.length_cons, List.length_cons]
                  rw [List.length_cons] at heq
                  omega
                rw [hidx2]
                simp

theorem pushMany_stacks (ts : List CText) :
    ∀ e : EntryState,
      (pushMany e ts).undo_stack = ts.foldl (pushSnap e.undo_capacity) e.undo_stack
      ∧ (pushMany e ts).undo_capacity = e.undo_capacity := by
  induction ts with
  | nil => intro e; exact ⟨rfl, rfl⟩
  | cons t rest ih =>
      intro e
      have h := ih (undo_push { e with text := t })
      simpa [pushMany, undo_push] using h

/-- C5: a push onto a full undo stack evicts the oldest snapshot (index 0),
appends the new one and clears the redo stack; consequently, pushing
N > capacity snapshots in sequence from an empty stack leaves exactly the
most recent `capacity` snapshots on the undo stack. -/
theorem history_push_eviction (e : EntryState) (ts : List CText) :
    (e.undo_stack.length = e.undo_capacity →
      (undo_push e).undo_stack = e.undo_stack.drop 1 ++ [e.text]
      ∧ (undo_push e).redo_stack = [])
    ∧ (e.undo_stack = [] → 1 ≤ e.undo_capacity → e.undo_capacity < ts.length →
      (pushMany e ts).undo_stack = ts.drop (ts.length - e.undo_capacity)
      ∧ (pushMany e ts).undo_stack.length = e.undo_capacity) := by
  constructor
  · intro h
    constructor
    · simp [undo_push, pushSnap, h.ge]
    · rfl
  · intro hnil hcap hlen
    have hstack := (pushMany_stacks ts e).1
    rw [hnil] at hstack
    rw [foldl_pushSnap_drop e.undo_capacity hcap ts [] (by simp)] at hstack
    simp at hstack
    refine ⟨hstack, ?_⟩
    rw [hstack]
    simp
    omega

def entC5 : EntryState :=
  { text := [], cursor := 0, sel_anchor := 0, sel_active := 0,
    undo_stack := [], redo_stack := [], undo_capacity := 2,
    kind := .text, max_length := 256, hex_uppercase := false, changes := 0 }

/-- Witness for C5: with capacity 2, pushing the three snapshots "a", "b",
"c" retains exactly ["b", "c"]. -/
theorem history_push_eviction_witness :
    entC5.undo_stack = [] ∧ 1 ≤ entC5.undo_capacity ∧
      entC5.undo_capacity < ([[97], [98], [99]] : List CText).length ∧
      (pushMany entC5 [[97], [98], [99]]).undo_stack = [[98], [99]] ∧
      (pushMany entC5 [[97], [98], [99]]).undo_stack.length = 2 :=
  ⟨rfl, by decide, by decide,
   ((history_push_eviction entC5 [[97], [98], [99]]).2 rfl (by decide) (by decide)).1,
   ((history_push_eviction entC5 [[97], [98], [99]]).2 rfl (by decide) (by decide)).2⟩

/-! ### C9: the history stacks never overflow their arrays -/

theorem hist_sum_le {e : EntryState} (h : HistReachable e) :
    1 ≤ e.undo_capacity →
      e.undo_stack.length + e.redo_stack.length ≤ e.undo_capacity := by
  induction h with
  | init e hu hr =>
      intro _
      simp [hu, hr]
  | @push e t _ ih =>
      intro hcap
      simp only [undo_push] at hcap ⊢
      have hsum := ih hcap
      by_cases hc : e.undo_capacity ≤ e.undo_stack.length
      · simp [pushSnap, hc, List.length_append, List.length_drop]
        omega
      · simp [pushSnap, hc, List.length_append]
        omega
  | @undo e _ ih =>
      intro hcap
      rcases hl : e.undo_stack.getLast? with _ | prev
      · simp only [do_undo, hl] at hcap ⊢
        exact ih hcap
      · have hne : e.undo_stack ≠ [] := by
          intro hnil
          rw [hnil] at hl
          cases hl
        have hpos : 0 < e.undo_stack.length := List.length_pos.mpr hne
        simp only [do_undo, hl] at hcap ⊢
        have hsum := ih hcap
        simp [List.length_dropLast, List.length_append]
        omega
  | @redo e _ ih =>
      intro hcap
      rcases hl : e.redo_stack.getLast? with _ | nxt
      · simp only [do_redo, hl] at hcap ⊢
        exact ih hcap
      · have hne : e.redo_stack ≠ [] := by
          intro hnil
          rw [hnil] at hl
          cases hl
        have hpos : 0 < e.redo_stack.length := List.length_pos.mpr hne
        simp only [do_redo, hl] at hcap ⊢
        have hsum := ih hcap
        simp [List.length_dropLast, List.length_append]
        omega
  | @edit e e' hu hr hc _ ih =>
      intro hcap
      rw [hu, hr, hc]
      exact ih (hc ▸ hcap)

/-- C9: along every sequence of `undo_push`, `do_undo` and `do_redo`
operations from empty stacks, the two stack tops satisfy
`undo_top + redo_top ≤ undo_capacity`; in particular, when an undo runs
its unchecked write index into the redo array is in bounds, and
symmetrically for redo into the undo array (both arrays have
`undo_capacity` slots). -/
theorem history_index_invariant (e : EntryState) (h : HistReachable e)
    (hcap : 1 ≤ e.undo_capacity) :
    e.undo_stack.length + e.redo_stack.length ≤ e.undo_capacity
    ∧ (e.undo_stack ≠ [] → e.redo_stack.length < e.undo_capacity)
    ∧ (e.redo_stack ≠ [] → e.undo_stack.length < e.undo_capacity) := by
  have hsum := hist_sum_le h hcap
  refine ⟨hsum, ?_, ?_⟩
  · intro hne
    have := List.length_pos.mpr hne
    omega
  · intro hne
    have := List.length_pos.mpr hne
    omega

def entC9 : EntryState :=
  { text := [48], cursor := 1, sel_anchor := 1, sel_active := 1,
    undo_stack := [], redo_stack := [], undo_capacity := 2,
    kind := .int, max_length := 12, hex_uppercase := false, changes := 0 }

/-- Witness for C9 after a push followed by an undo (capacity 2). -/
theorem history_index_invariant_witness :
    1 ≤ (do_undo (undo_push { entC9 with text := [49] })).undo_capacity ∧
      (do_undo (undo_push { entC9 with text := [49] })).undo_stack.length +
        (do_undo (undo_push { entC9 with text := [49] })).redo_stack.length ≤
        (do_undo (undo_push { entC9 with text := [49] })).undo_capacity :=
  ⟨by decide,
   (history_index_invariant _
     (HistReachable.undo (HistReachable.push [49] (HistReachable.init entC9 rfl rfl)))
     (by decide)).1⟩

/-! ### C1: uniqueness of pending requests per (window, property) key -/

/-- The context after two paste requests from the same window 7 for the
CLIPBOARD slot, both while window 99 (a foreign owner) owns the
selection. -/
def badClipCtx : ClipboardContext :=
  (clipboard_request_text
    (clipboard_request_text (clipboard_create 1) 7 1 .clipboard 99).ctx
    7 2 .clipboard 99).ctx

/-- Counterexample to C1: `clipboard_request_text` allocates a fresh slot
without checking for an existing pending request with the same key, so a
second paste request from window 7 while the first is still pending is a
reachable state holding two active table entries with the same
(window, property) pair. -/
theorem duplicate_pending_key_counterexample :
    ClipReachable badClipCtx ∧ hasDupKey badClipCtx.requests = true :=
  ⟨ClipReachable.request 7 2 .clipboard 99
    (ClipReachable.request 7 1 .clipboard 99
      (ClipReachable.create 1 (by decide))),
   by decide⟩

/-- C1 amended: the pending-request table does not enforce uniqueness per
(window, property) key.  A second paste request from the same window while
one is already pending (owner foreign, table fresh) allocates a second
slot, leaving two active entries whose (window, property) keys are equal —
both use the single interned transfer property atom. -/
theorem duplicate_pending_key_amended (p win cb1 cb2 owner : Nat) (t : SelectionType)
    (hcb1 : cb1 ≠ 0) (hcb2 : cb2 ≠ 0) (howner : owner ≠ 0) :
    ((clipboard_request_text (clipboard_request_text (clipboard_create p) win cb1 t owner).ctx
        win cb2 t owner).ctx.requests.getD 0 default = ⟨win, cb1, t, p, true⟩)
    ∧ ((clipboard_request_text (clipboard_request_text (clipboard_create p) win cb1 t owner).ctx
        win cb2 t owner).ctx.requests.getD 1 default = ⟨win, cb2, t, p, true⟩) := by
  have step1 : clipboard_request_text (clipboard_create p) win cb1 t owner
      = ⟨{ clipboard_create p with
           requests := (⟨win, cb1, t, p, true⟩ : PendingRequest) ::
             List.replicate 7 ⟨0, 0, .clipboard, 0, false⟩ }, [], true⟩ := by
    cases t <;>
      simp [clipboard_request_text, hcb1, howner, clipboard_create, get_data_for_selection,
        alloc_request, findFreeIdx, List.replicate_succ]
  rw [step1]
  have step2 : ∀ c2 : ClipboardContext,
      c2 = { clipboard_create p with
             requests := (⟨win, cb1, t, p, true⟩ : PendingRequest) ::
               List.replicate 7 ⟨0, 0, .clipboard, 0, false⟩ } →
      clipboard_request_text c2 win cb2 t owner
        = ⟨{ c2 with
             requests := (⟨win, cb1, t, p, true⟩ : PendingRequest) ::
               (⟨win, cb2, t, p, true⟩ : PendingRequest) ::
                 List.replicate 6 ⟨0, 0, .clipboard, 0, false⟩ }, [], true⟩ := by
    intro c2 hc2
    subst hc2
    cases t <;>
      simp [clipboard_request_text, hcb2, howner, clipboard_create, get_data_for_selection,
        alloc_request, findFreeIdx, List.replicate_succ]
  rw [step2 _ rfl]
  exact ⟨rfl, rfl⟩

/-- Witness for the amended C1 at the counterexample input. -/
theorem duplicate_pending_key_amended_witness :
    badClipCtx.requests.getD 0 default =
        (⟨7, 1, .clipboard, 1, true⟩ : PendingRequest) ∧
      badClipCtx.requests.getD 1 default =
        (⟨7, 2, .clipboard, 1, true⟩ : PendingRequest) :=
  duplicate_pending_key_amended 1 7 1 2 99 .clipboard
    (by decide) (by decide) (by decide)

/-! ### C3: every pending request is resolved exactly once -/

theorem getD_set_ne (rs : List PendingRequest) (r : PendingRequest) :
    ∀ (j i : Nat), i ≠ j → (rs.set j r).getD i default = rs.getD i default := by
  induction rs with
  | nil => intro j i _; rfl
  | cons a l ih =>
      intro j i hne
      cases j with
      | zero =>
          cases i with
          | zero => exact absurd rfl hne
          | succ k => rfl
      | succ j' =>
          cases i with
          | zero => rfl
          | succ k =>
              have : k ≠ j' := fun h => hne (by rw [h])
              simpa [List.set, List.getD_cons_succ] using ih j' k this

theorem getD_set_self (rs : List PendingRequest) (r : PendingRequest) :
    ∀ j, j < rs.length → (rs.set j r).getD j default = r := by
  induction rs with
  | nil => intro j h; simp at h
  | cons a l ih =>
      intro j h
      cases j with
      | zero => rfl
      | succ j' =>
          have : j' < l.length := by simpa using h
          simpa [List.set, List.getD_cons_succ] using ih j' this

theorem find_request_spec :
    ∀ (rs : List PendingRequest) (win prop i : Nat),
      find_request rs win prop = some i →
      i < rs.length ∧ (rs.getD i default).active = true ∧
        (rs.getD i default).window = win ∧ (rs.getD i default).property = prop := by
  intro rs
  induction rs with
  | nil => intro win prop i h; cases h
  | cons r rest ih =>
      intro win prop i h
      by_cases hc : r.active = true ∧ r.window = win ∧ r.property = prop
      · rw [find_request, if_pos hc] at h
        obtain rfl : (0 : Nat) = i := by injection h
        exact ⟨Nat.succ_pos _, hc.1, hc.2.1, hc.2.2⟩
      · rw [find_request, if_neg hc] at h
        obtain ⟨j, hj, hji⟩ := Option.map_eq_some'.mp h
        subst hji
        obtain ⟨hlt, ha, hw, hp⟩ := ih win prop j hj
        exact ⟨by simpa using Nat.succ_lt_succ hlt,
          by simpa [List.getD_cons_succ] using ha,
          by simpa [List.getD_cons_succ] using hw,
          by simpa [List.getD_cons_succ] using hp⟩

theorem callsTo_append (i : Nat) (a b : List SlotCall) :
    callsTo i (a ++ b) = callsTo i a + callsTo i b := by
  simp [callsTo, List.filter_append]

theorem notify_step (c : ClipboardContext) (ev : NotifyEvent) (pr : PropRead) (i : Nat) :
    callsTo i (handle_selection_notify c ev pr).2 =
        (if find_request c.requests ev.requestor ev.property = some i then 1 else 0)
    ∧ ((handle_selection_notify c ev pr).1.requests.getD i default =
        (if find_request c.requests ev.requestor ev.property = some i
         then { c.requests.getD i default with active := false }
         else c.requests.getD i default))
    ∧ (find_request c.requests ev.requestor ev.property = some i →
        (c.requests.getD i default).active = true) := by
  rcases hf : find_request c.requests ev.requestor ev.property with _ | j
  · simp [handle_selection_notify, hf, callsTo]
  · obtain ⟨hlt, ha, _, _⟩ := find_request_spec c.requests _ _ j hf
    have hup : handle_selection_notify c ev pr =
        ({ c with requests := c.requests.set j ({ c.requests.getD j default with active := false }) },
         [⟨j, (c.requests.getD j default).callback, notify_arg ev.property pr⟩]) := by
      unfold handle_selection_notify
      rw [hf]
    by_cases hij : j = i
    · subst hij
      refine ⟨?_, ?_, fun _ => ha⟩
      · rw [hup, if_pos rfl]
        simp [callsTo]
      · rw [hup, if_pos rfl]
        exact getD_set_self c.requests _ j hlt
    · have hne : i ≠ j := fun h => hij h.symm
      have hsome : ¬((some j : Option Nat) = some i) := by
        intro h
        injection h with h
        exact hij h
      refine ⟨?_, ?_, fun h => absurd h hsome⟩
      · rw [hup, if_neg hsome]
        simp [callsTo, hij]
      · rw [hup, if_neg hsome]
        exact getD_set_ne c.requests _ j i hne

theorem runNotifies_cons_fst (c : ClipboardContext) (ev : NotifyEvent) (pr : PropRead)
    (rest : List (NotifyEvent × PropRead)) :
    (runNotifies c ((ev, pr) :: rest)).1 =
      (runNotifies (handle_selection_notify c ev pr).1 rest).1 := rfl

theorem runNotifies_cons_snd (c : ClipboardContext) (ev : NotifyEvent) (pr : PropRead)
    (rest : List (NotifyEvent × PropRead)) :
    (runNotifies c ((ev, pr) :: rest)).2 =
      (handle_selection_notify c ev pr).2 ++
        (runNotifies (handle_selection_notify c ev pr).1 rest).2 := rfl

theorem runNotifies_once :
    ∀ (evs : List (NotifyEvent × PropRead)) (c : ClipboardContext) (i : Nat),
      (callsTo i (runNotifies c evs).2 +
        (if ((runNotifies c evs).1.requests.getD i default).active = true then 1 else 0) =
        (if (c.requests.getD i default).active = true then 1 else 0))
      ∧ ((runNotifies c evs).1.requests.getD i default).callback =
        (c.requests.getD i default).callback := by
  intro evs
  induction evs with
  | nil => intro c i; simp [runNotifies, callsTo]
  | cons ep rest ih =>
      intro c i
      obtain ⟨ev, pr⟩ := ep
      obtain ⟨h1, h2, h3⟩ := notify_step c ev pr i
      obtain ⟨ih1, ih2⟩ := ih (handle_selection_notify c ev pr).1 i
      constructor
      · rw [runNotifies_cons_snd, runNotifies_cons_fst, callsTo_append, h1]
        by_cases hfi : find_request c.requests ev.requestor ev.property = some i
        · have hstart : (if (c.requests.getD i default).active = true then 1 else 0) = 1 := by
            rw [h3 hfi]
            rfl
          have hmid : ((handle_selection_notify c ev pr).1.requests.getD i default).active
              = false := by
            rw [h2, if_pos hfi]
          rw [hmid] at ih1
          simp only [Bool.false_eq_true, if_false] at ih1
          obtain ⟨hz1, hz2⟩ := Nat.add_eq_zero.mp ih1
          rw [if_pos hfi, hstart, hz1, hz2]
        · have hmid : (handle_selection_notify c ev pr).1.requests.getD i default
              = c.requests.getD i default := by
            rw [h2, if_neg hfi]
          rw [hmid] at ih1
          rw [if_neg hfi]
          simpa using ih1
      · rw [runNotifies_cons_fst, ih2, h2]
        by_cases hfi : find_request c.requests ev.requestor ev.property = some i
        · rw [if_pos hfi]
        · rw [if_neg hfi]

theorem callsTo_destroyAux_lt :
    ∀ (rs : List PendingRequest) (k i : Nat), i < k →
      callsTo i (destroyCallsAux rs k) = 0 := by
  intro rs
  induction rs with
  | nil => intro k i _; rfl
  | cons r rest ih =>
      intro k i h
      rw [destroyCallsAux, callsTo_append]
      rw [ih (k + 1) i (by omega)]
      have hki : ¬(k == i) = true := by simp; omega
      by_cases hc : r.active = true ∧ r.callback ≠ 0 <;> simp [hc, callsTo, hki]

theorem callsTo_destroyAux :
    ∀ (rs : List PendingRequest) (k i : Nat),
      callsTo (k + i) (destroyCallsAux rs k) =
        if (rs.getD i default).active = true ∧ (rs.getD i default).callback ≠ 0
        then 1 else 0 := by
  intro rs
  induction rs with
  | nil =>
      intro k i
      rw [List.getD_nil]
      have : callsTo (k + i) (destroyCallsAux [] k) = 0 := rfl
      rw [this]
      decide
  | cons r rest ih =>
      intro k i
      cases i with
      | zero =>
          rw [destroyCallsAux, callsTo_append]
          rw [callsTo_destroyAux_lt rest (k + 1) (k + 0) (by omega)]
          by_cases hc : r.active = true ∧ r.callback ≠ 0 <;>
            simp [hc, callsTo, List.getD_cons_zero]
      | succ i' =>
          rw [destroyCallsAux, callsTo_append]
          have h1 : callsTo (k + (i' + 1))
              (if r.active = true ∧ r.callback ≠ 0 then [⟨k, r.callback, none⟩] else []) = 0 := by
            have hki : ¬(k == k + (i' + 1)) = true := by simp
            by_cases hc : r.active = true ∧ r.callback ≠ 0 <;> simp [hc, callsTo, hki]
          rw [h1]
          have h2 : k + (i' + 1) = (k + 1) + i' := by omega
          rw [h2, ih (k + 1) i']
          simp [List.getD_cons_succ]

/-- C3: over any trace of SelectionNotify events followed by session
teardown, a pending request that starts active (with a non-`NULL`
callback) has its callback invoked exactly once in total, whichever
resolution path fires — denial, property-read failure, INCR marker,
non-text payload, text payload, or the teardown sweep — because every
event path marks the request inactive when it fires the callback and a
matching later event can only resolve a different (still active) slot. -/
theorem paste_request_exactly_once (c : ClipboardContext)
    (evs : List (NotifyEvent × PropRead)) (i : Nat)
    (hact : (c.requests.getD i default).active = true)
    (hcb : (c.requests.getD i default).callback ≠ 0) :
    callsTo i ((runNotifies c evs).2 ++ clipboard_destroy (runNotifies c evs).1) = 1 := by
  obtain ⟨h1, h2⟩ := runNotifies_once evs c i
  rw [callsTo_append]
  have hdest : callsTo i (clipboard_destroy (runNotifies c evs).1) =
      if ((runNotifies c evs).1.requests.getD i default).active = true ∧
          ((runNotifies c evs).1.requests.getD i default).callback ≠ 0
      then 1 else 0 := by
    have h := callsTo_destroyAux (runNotifies c evs).1.requests 0 i
    simpa [clipboard_destroy] using h
  rw [hdest]
  rw [hact, if_pos rfl] at h1
  have hcbEnd : ((runNotifies c evs).1.requests.getD i default).callback ≠ 0 := by
    rw [h2]; exact hcb
  by_cases hend : ((runNotifies c evs).1.requests.getD i default).active = true
  · rw [if_pos ⟨hend, hcbEnd⟩]
    rw [if_pos hend] at h1
    omega
  · rw [if_neg (fun hh => hend hh.1)]
    rw [if_neg hend] at h1
    omega

def ctxC3 : ClipboardContext :=
  { property_atom := 5
    clipboard_data := ⟨none, 0⟩
    primary_data := ⟨none, 0⟩
    requests := (⟨7, 1, .clipboard, 5, true⟩ : PendingRequest) ::
      List.replicate 7 ⟨0, 0, .clipboard, 0, false⟩ }

def evsC3 : List (NotifyEvent × PropRead) :=
  [(⟨7, 5⟩, .typed true [97, 98]), (⟨7, 5⟩, .typed true [99, 100])]

/-- Witness for C3: a pending request resolved by a successful text
transfer, with a duplicate matching event arriving afterwards and the
session then torn down, fires its callback exactly once. -/
theorem paste_request_exactly_once_witness :
    (ctxC3.requests.getD 0 default).active = true ∧
      (ctxC3.requests.getD 0 default).callback ≠ 0 ∧
      callsTo 0 ((runNotifies ctxC3 evsC3).2 ++
        clipboard_destroy (runNotifies ctxC3 evsC3).1) = 1 :=
  ⟨by decide, by decide,
   paste_request_exactly_once ctxC3 evsC3 0 (by decide) (by decide)⟩


